import Mathlib

/-!
Verification development for the travel-planning front end (map waypoints,
POI search, route orchestration, story generation, shareable-link encoding).

Each definition is a shallow embedding of a function or reactive effect of
the source (src/App.tsx, src/components/MapComponent.tsx,
src/services/osmService.ts = src/unnamed/part_000, src/services/geminiService.ts).
JavaScript numbers are modelled as exact decimal values where the code only
prints/parses them; JavaScript strings are modelled as Lean `String` or
`List Char` (sequences of Unicode scalar values); `undefined`/absent values
are modelled with `Option`; thrown exceptions with `Option`/`Except`.
Asynchronous effects are modelled as small labelled transition systems whose
events are the points where the JavaScript event loop can interleave
(a state change handled by an effect, or the resolution of a pending request).
-/

/-- Transport mode of the trip, source type `TransportMode = 'car' | 'bike' | 'foot'`
(src/types.ts). The spec calls these DRIVING, CYCLING, WALKING. -/
inductive TransportMode where
  | car
  | bike
  | foot
deriving DecidableEq, Repr

/-- A named coordinate, source interface `Location` (src/types.ts).
Latitude/longitude are modelled as exact rationals: none of the verified
code paths does arithmetic on them, they are only stored, compared and
serialized. -/
structure Location where
  lat : ℚ
  lng : ℚ
  name : String
deriving DecidableEq, Repr

/-- The waypoint-selection role, source type `'start' | 'end'` of the
`selectionMode` state in src/App.tsx line 13.  `start` names the source
value `'start'`, `endSel` the source value `'end'` (a Lean keyword). -/
inductive SelectionMode where
  | start
  | endSel
deriving DecidableEq, Repr

/-- The slice of the trip session mutated by map clicks: the two waypoint
slots and the active selection role (src/App.tsx lines 9, 10, 13). -/
structure ClickState where
  startLoc : Option Location
  endLoc : Option Location
  selectionMode : SelectionMode
deriving DecidableEq, Repr

/-- The initial click-state: no waypoints, selection role `'start'`
(src/App.tsx `useState<'start' | 'end'>('start')`). -/
def initClickState : ClickState :=
  { startLoc := none, endLoc := none, selectionMode := SelectionMode.start }

/-- One map click carrying an already-built `Location` (coordinate plus the
name resolved by reverse geocoding), applied to the click state.  Embeds the
body of the `click` handler in `MapClickHandler`
(src/components/MapComponent.tsx lines 71-84): while the role is `'start'`
the click sets the start slot and switches the role to `'end'`; otherwise it
sets the end slot and leaves the role alone. -/
def clickStep (st : ClickState) (newLoc : Location) : ClickState :=
  if st.selectionMode = SelectionMode.start then
    { st with startLoc := some newLoc, selectionMode := SelectionMode.endSel }
  else
    { st with endLoc := some newLoc }

/-- Folding a sequence of clicks over the click state. -/
def runClicks (st : ClickState) (clicks : List Location) : ClickState :=
  clicks.foldl clickStep st

/-- Claim C4: the selection role starts at START; a click handled while the
role is START sets the start coordinate and advances the role to END; a
click handled while the role is END sets the end coordinate and never
changes the role.  The per-click facts are stated for an arbitrary state,
hence hold at every point of every sequence of map clicks
(`runClicks` being the fold of `clickStep`). -/
theorem click_role_protocol :
    initClickState.selectionMode = SelectionMode.start ∧
    (∀ st loc, st.selectionMode = SelectionMode.start →
      (clickStep st loc).startLoc = some loc ∧
      (clickStep st loc).endLoc = st.endLoc ∧
      (clickStep st loc).selectionMode = SelectionMode.endSel) ∧
    (∀ st loc, st.selectionMode = SelectionMode.endSel →
      (clickStep st loc).endLoc = some loc ∧
      (clickStep st loc).startLoc = st.startLoc ∧
      (clickStep st loc).selectionMode = st.selectionMode) ∧
    (∀ st clicks loc, runClicks st (clicks ++ [loc]) =
      clickStep (runClicks st clicks) loc) := by
  refine ⟨rfl, ?_, ?_, ?_⟩
  · intro st loc h
    simp [clickStep, h]
  · intro st loc h
    have hne : st.selectionMode ≠ SelectionMode.start := by
      rw [h]; intro hc; cases hc
    simp [clickStep, hne]
  · intro st clicks loc
    simp [runClicks, List.foldl_append]

/-- Witness for C4 at concrete inputs: a first click in START mode, then a
second click handled in END mode. -/
theorem click_role_protocol_witness :
    (clickStep initClickState ⟨1, 2, "A"⟩).startLoc = some ⟨1, 2, "A"⟩ ∧
    (clickStep initClickState ⟨1, 2, "A"⟩).selectionMode = SelectionMode.endSel ∧
    (clickStep (clickStep initClickState ⟨1, 2, "A"⟩) ⟨3, 4, "B"⟩).endLoc
      = some ⟨3, 4, "B"⟩ ∧
    (clickStep (clickStep initClickState ⟨1, 2, "A"⟩) ⟨3, 4, "B"⟩).selectionMode
      = SelectionMode.endSel := by
  have h1 := (click_role_protocol.2.1) initClickState ⟨1, 2, "A"⟩ (by decide)
  have h2 := (click_role_protocol.2.2.1) (clickStep initClickState ⟨1, 2, "A"⟩)
      ⟨3, 4, "B"⟩ (by decide)
  refine ⟨h1.1, h1.2.2, h2.1, ?_⟩
  rw [h2.2.2]; decide

/-- JavaScript string-valued `a || b`: returns `b` exactly when `a` is falsy
(absent/`undefined`, modelled `none`, or the empty string). Used to embed the
tag-fallback chains of src/unnamed/part_000 (osmService). -/
def jsOrStr : Option String → Option String → Option String
  | some s, b => if s = "" then b else some s
  | none, b => b

/-- JavaScript truthiness of an optional string: present and non-empty. -/
def jsStrTruthy : Option String → Bool
  | some s => s != ""
  | none => false

/-- The tags of an Overpass element that the POI mapping of `getPOIs`
(src/unnamed/part_000 lines 70-91) reads.  Absent tags are `none`. -/
structure OverpassTags where
  name : Option String
  description : Option String
  note : Option String
  descriptionFr : Option String
  descriptionEn : Option String
  tourism : Option String
  historic : Option String
  website : Option String
  url : Option String
  addrHousenumber : Option String
  addrStreet : Option String
  addrPostcode : Option String
  addrCity : Option String
deriving DecidableEq, Repr

/-- Tags with every key absent, the `\x7b\x7d` of `const tags = el.tags || \x7b\x7d`. -/
def emptyTags : OverpassTags :=
  ⟨none, none, none, none, none, none, none, none, none, none, none, none, none⟩

/-- A raw Overpass element as consumed by `getPOIs`: `el.id`, `el.lat`,
`el.lon`, `el.tags` (possibly absent). -/
structure OverpassElement where
  id : Int
  lat : ℚ
  lon : ℚ
  tags : Option OverpassTags
deriving DecidableEq, Repr

/-- The normalized POI record, source interface `POI` (src/types.ts). -/
structure POI where
  id : Int
  lat : ℚ
  lng : ℚ
  name : String
  type : String
  website : Option String
  description : Option String
  address : Option String
deriving DecidableEq, Repr

/-- The fixed placeholder name for unnamed POIs (src/unnamed/part_000). -/
def poiPlaceholder : String := "Lieu d\x27intérêt sans nom"

/-- JavaScript `Array.prototype.join(', ')`. -/
def joinComma : List String → String
  | [] => ""
  | x :: xs => xs.foldl (fun a s => a ++ ", " ++ s) x

/-- The truthy values among a list of optional strings (the effect of
`.filter(Boolean)` on `[hn, street, postcode, city]`). -/
def truthyFields (parts : List (Option String)) : List String :=
  parts.filterMap (fun o => o.bind (fun s => if s = "" then none else some s))

/-- The element-to-POI mapping inside `getPOIs` (src/unnamed/part_000
lines 70-88): name from `name`, falling back to `description`, falling back
to the placeholder; category from `tourism`, falling back to `historic`,
falling back to \"poi\"; comma-joined address from the present `addr:*`
sub-fields (empty join becomes `undefined`); website from `website` or
`url`; description from a chain of description-like tags. -/
def mapElement (el : OverpassElement) : POI :=
  let tags := el.tags.getD emptyTags
  let address := joinComma (truthyFields
    [tags.addrHousenumber, tags.addrStreet, tags.addrPostcode, tags.addrCity])
  { id := el.id
    lat := el.lat
    lng := el.lon
    name := (jsOrStr (jsOrStr tags.name tags.description) (some poiPlaceholder)).getD ""
    type := (jsOrStr (jsOrStr tags.tourism tags.historic) (some "poi")).getD ""
    website := jsOrStr tags.website tags.url
    description := jsOrStr (jsOrStr (jsOrStr tags.description tags.note)
      tags.descriptionFr) tags.descriptionEn
    address := if address = "" then none else some address }

/-- The mapping-and-filter pipeline of `getPOIs` applied to the decoded
elements of a successful Overpass response: map to `POI`, then drop every
record whose derived name is the placeholder. -/
def getPOIsMapping (els : List OverpassElement) : List POI :=
  (els.map mapElement).filter (fun p => p.name != poiPlaceholder)

/-- An element tagged only `tourism=museum`, with no name tag
(the scenario record of the spec). -/
def museumElement : OverpassElement :=
  ⟨1, 488566/10000, 23522/10000, some { emptyTags with tourism := some "museum" }⟩

theorem joinComma_cons_cons (x y : String) (xs : List String) :
    joinComma (x :: y :: xs) = joinComma ((x ++ ", " ++ y) :: xs) := rfl

theorem joinComma_length_ge (xs : List String) (x : String) :
    x.length ≤ (joinComma (x :: xs)).length := by
  induction xs generalizing x with
  | nil => simp [joinComma]
  | cons b bs ih =>
      rw [joinComma_cons_cons]
      have hsep : (", " : String).length = 2 := rfl
      have hlen : (x ++ ", " ++ b).length = x.length + 2 + b.length := by
        rw [String.length_append, String.length_append, hsep]
      have h2 := ih (x ++ ", " ++ b)
      omega

theorem strLengthPos (x : String) (hx : x ≠ "") : 0 < x.length := by
  cases x with
  | mk l =>
      cases l with
      | nil => exact absurd rfl hx
      | cons c cs => simp

theorem joinComma_ne_empty (x : String) (hx : x ≠ "") (xs : List String) :
    joinComma (x :: xs) ≠ "" := by
  intro hemp
  have h1 := joinComma_length_ge xs x
  rw [hemp] at h1
  have h2 : 0 < x.length := strLengthPos x hx
  simp at h1
  omega

theorem truthyFields_mem_ne_empty (parts : List (Option String)) :
    ∀ s ∈ truthyFields parts, s ≠ "" := by
  intro s hs
  simp only [truthyFields, List.mem_filterMap] at hs
  obtain ⟨o, _, ho⟩ := hs
  cases o with
  | none => simp at ho
  | some v =>
      simp only [Option.some_bind] at ho
      split at ho
      · simp at ho
      · rename_i hv
        cases ho
        exact hv

theorem mapElement_address (el : OverpassElement) (t : OverpassTags)
    (ht : el.tags = some t) :
    (mapElement el).address =
      (if joinComma (truthyFields [t.addrHousenumber, t.addrStreet,
          t.addrPostcode, t.addrCity]) = "" then none
       else some (joinComma (truthyFields [t.addrHousenumber, t.addrStreet,
          t.addrPostcode, t.addrCity]))) := by
  simp [mapElement, ht]

/-- Claim C5: name is derived from the name tag, falling back to the
description tag, falling back to the fixed placeholder; the category comes
from whichever interest tag matched; the address comma-joins exactly the
present sub-fields (none present gives no address); the website comes from
the website tag or else the url tag; no returned record's name is the
placeholder, and the unnamed museum record is excluded. -/
theorem poi_normalization :
    (∀ el t, el.tags = some t →
      (∀ s, t.name = some s → s ≠ "" → (mapElement el).name = s) ∧
      (jsStrTruthy t.name = false →
        ∀ s, t.description = some s → s ≠ "" → (mapElement el).name = s) ∧
      (jsStrTruthy t.name = false → jsStrTruthy t.description = false →
        (mapElement el).name = poiPlaceholder) ∧
      (∀ s, t.tourism = some s → s ≠ "" → (mapElement el).type = s) ∧
      (jsStrTruthy t.tourism = false →
        ∀ s, t.historic = some s → s ≠ "" → (mapElement el).type = s) ∧
      ((mapElement el).address = none ↔
        truthyFields [t.addrHousenumber, t.addrStreet, t.addrPostcode,
          t.addrCity] = []) ∧
      (∀ l ls, truthyFields [t.addrHousenumber, t.addrStreet, t.addrPostcode,
          t.addrCity] = l :: ls →
        (mapElement el).address = some (joinComma (l :: ls))) ∧
      (jsStrTruthy t.website = true → (mapElement el).website = t.website) ∧
      (jsStrTruthy t.website = false → (mapElement el).website = t.url)) ∧
    (∀ els p, p ∈ getPOIsMapping els → p.name ≠ poiPlaceholder) ∧
    getPOIsMapping [museumElement] = [] := by
  refine ⟨?_, ?_, by decide⟩
  · intro el t ht
    refine ⟨?_, ?_, ?_, ?_, ?_, ?_, ?_, ?_, ?_⟩
    · intro s hs hne
      simp [mapElement, ht, jsOrStr, hs, hne]
    · intro hname s hs hne
      cases hn : t.name with
      | none => simp [mapElement, ht, jsOrStr, hn, hs, hne]
      | some v =>
          have hv : v = "" := by
            simpa [jsStrTruthy, hn] using hname
          simp [mapElement, ht, jsOrStr, hn, hv, hs, hne]
    · intro hname hdesc
      cases hn : t.name with
      | none =>
          cases hd : t.description with
          | none => simp [mapElement, ht, jsOrStr, hn, hd]
          | some w =>
              have hw : w = "" := by simpa [jsStrTruthy, hd] using hdesc
              simp [mapElement, ht, jsOrStr, hn, hd, hw]
      | some v =>
          have hv : v = "" := by simpa [jsStrTruthy, hn] using hname
          cases hd : t.description with
          | none => simp [mapElement, ht, jsOrStr, hn, hv, hd]
          | some w =>
              have hw : w = "" := by simpa [jsStrTruthy, hd] using hdesc
              simp [mapElement, ht, jsOrStr, hn, hv, hd, hw]
    · intro s hs hne
      simp [mapElement, ht, jsOrStr, hs, hne]
    · intro htour s hs hne
      cases hn : t.tourism with
      | none => simp [mapElement, ht, jsOrStr, hn, hs, hne]
      | some v =>
          have hv : v = "" := by simpa [jsStrTruthy, hn] using htour
          simp [mapElement, ht, jsOrStr, hn, hv, hs, hne]
    · rw [mapElement_address el t ht]
      constructor
      · intro h
        cases hl : truthyFields [t.addrHousenumber, t.addrStreet,
            t.addrPostcode, t.addrCity] with
        | nil => rfl
        | cons l ls =>
            have hlne : l ≠ "" := by
              refine truthyFields_mem_ne_empty [t.addrHousenumber, t.addrStreet,
                t.addrPostcode, t.addrCity] l ?_
              rw [hl]; exact List.mem_cons_self _ _
            have hne := joinComma_ne_empty l hlne ls
            rw [hl] at h
            simp [hne] at h
      · intro h
        simp [h, joinComma]
    · intro l ls hl
      rw [mapElement_address el t ht, hl]
      have hlne : l ≠ "" := by
        refine truthyFields_mem_ne_empty [t.addrHousenumber, t.addrStreet,
          t.addrPostcode, t.addrCity] l ?_
        rw [hl]; exact List.mem_cons_self _ _
      have hne := joinComma_ne_empty l hlne ls
      simp [hne]
    · intro hw
      cases hn : t.website with
      | none => simp [jsStrTruthy, hn] at hw
      | some v =>
          have hv : v ≠ "" := by simpa [jsStrTruthy, hn] using hw
          simp [mapElement, ht, jsOrStr, hn, hv]
    · intro hw
      cases hn : t.website with
      | none => simp [mapElement, ht, jsOrStr, hn]
      | some v =>
          have hv : v = "" := by simpa [jsStrTruthy, hn] using hw
          simp [mapElement, ht, jsOrStr, hn, hv]
  · intro els p hp
    simp only [getPOIsMapping, List.mem_filter] at hp
    simpa using hp.2

/-- A concrete element exercising the name, category, address and website
derivations, for the C5 witness. -/
def sampleTags : OverpassTags :=
  ⟨some "Louvre", none, none, none, none, some "museum", none,
    some "https://louvre.fr", none, none, some "Rue de Rivoli", none, some "Paris"⟩

/-- The sample element wrapping `sampleTags`. -/
def sampleElement : OverpassElement :=
  ⟨42, 1, 2, some sampleTags⟩

/-- Witness for C5 at a concrete raw record. -/
theorem poi_normalization_witness :
    (mapElement sampleElement).name = "Louvre" ∧
    (mapElement sampleElement).type = "museum" ∧
    (mapElement sampleElement).address = some "Rue de Rivoli, Paris" ∧
    (mapElement sampleElement).website = some "https://louvre.fr" := by
  have h := poi_normalization.1 sampleElement sampleTags rfl
  refine ⟨h.1 "Louvre" rfl (by decide), h.2.2.2.1 "museum" rfl (by decide), ?_, ?_⟩
  · have h2 := h.2.2.2.2.2.2.1 "Rue de Rivoli" ["Paris"] (by decide)
    rw [h2]; rfl
  · have h3 := h.2.2.2.2.2.2.2.1 (by decide)
    rw [h3]; rfl

/-- The placeholder place name returned when reverse geocoding fails
(src/unnamed/part_000 line 42). -/
def reverseGeocodePlaceholder : String := "Lieu inconnu"

/-- JavaScript `s.split(',')[0]`: the characters before the first comma. -/
def firstCommaSegment (s : String) : String :=
  String.mk (s.toList.takeWhile (fun c => !(c == ',')))

/-- Embeds `reverseGeocode` (src/unnamed/part_000 lines 27-44).  `resp` is
the `display_name` of a successful response; `none` stands for any failure
inside the `try` (network error, missing field).  The function is total:
every failure becomes the fixed placeholder, no error propagates. -/
def reverseGeocode (resp : Option String) : String :=
  match resp with
  | some displayName => firstCommaSegment displayName
  | none => reverseGeocodePlaceholder

/-- The complete map-click handler (src/components/MapComponent.tsx
lines 71-84): resolve a name via `reverseGeocode` (possibly failing),
build the `Location`, and apply `clickStep`. -/
def handleMapClick (st : ClickState) (lat lng : ℚ) (resp : Option String) :
    ClickState :=
  clickStep st ⟨lat, lng, reverseGeocode resp⟩

/-- Claim C6: a map click always creates a waypoint, even when reverse
geocoding fails; the reverse-geocode operation never propagates an error
and yields the fixed placeholder on failure, and the click handler always
sets the targeted coordinate slot (with the placeholder as label in the
failure case). -/
theorem click_survives_geocode_failure :
    reverseGeocode none = reverseGeocodePlaceholder ∧
    ∀ st lat lng resp,
      (st.selectionMode = SelectionMode.start →
        (handleMapClick st lat lng resp).startLoc
          = some ⟨lat, lng, reverseGeocode resp⟩) ∧
      (st.selectionMode = SelectionMode.endSel →
        (handleMapClick st lat lng resp).endLoc
          = some ⟨lat, lng, reverseGeocode resp⟩) := by
  refine ⟨rfl, ?_⟩
  intro st lat lng resp
  constructor
  · intro h
    simp [handleMapClick, clickStep, h]
  · intro h
    have hne : st.selectionMode ≠ SelectionMode.start := by
      rw [h]; intro hc; cases hc
    simp [handleMapClick, clickStep, hne]
  
/-- Witness for C6: a click at (5, 6) whose reverse geocoding fails still
sets the start waypoint, labelled with the placeholder. -/
theorem click_survives_geocode_failure_witness :
    (handleMapClick initClickState 5 6 none).startLoc
      = some ⟨5, 6, reverseGeocodePlaceholder⟩ := by
  have h := (click_survives_geocode_failure.2 initClickState 5 6 none).1 (by decide)
  rw [h]; rfl

/-- Story style, source enum `StoryStyle` (src/types.ts); value strings as
in the source. -/
inductive StoryStyle where
  | historical
  | fantasy
  | adventure
  | children
  | scifi
deriving DecidableEq, Repr

/-- The string value of a `StoryStyle` (src/types.ts). -/
def StoryStyle.str : StoryStyle → String
  | .historical => "Historique"
  | .fantasy => "Fantaisie"
  | .adventure => "Aventure"
  | .children => "Enfant"
  | .scifi => "Science-Fiction"

/-- Story language, source enum `StoryLanguage` (src/types.ts). -/
inductive StoryLanguage where
  | auto
  | french
  | english
  | spanish
  | german
deriving DecidableEq, Repr

/-- The string value of a `StoryLanguage` (src/types.ts). -/
def StoryLanguage.str : StoryLanguage → String
  | .auto => "Auto"
  | .french => "Français"
  | .english => "English"
  | .spanish => "Español"
  | .german => "Deutsch"

/-- Source interface `StoryConfig` (src/types.ts). -/
structure StoryConfig where
  style : StoryStyle
  language : StoryLanguage
deriving DecidableEq, Repr

/-- The request `generateStoryStream` hands to the generative-text client:
a model identifier and the prompt contents
(src/services/geminiService.ts lines 40-43). -/
structure GenRequest where
  model : String
  contents : String
deriving DecidableEq, Repr

/-- The prompt template of `generateStoryStream`
(src/services/geminiService.ts lines 22-38), with the four interpolations.
Leading/trailing template whitespace is kept as newline-separated lines. -/
def buildPrompt (startName endName poiNames styleStr langStr : String) : String :=
  "\n    Tu es un conteur expert.\n    Génère une histoire courte et immersive (max 400 mots) basée sur un voyage réel.\n    \n    PARAMÈTRES:\n    - Départ: "
    ++ startName
    ++ "\n    - Arrivée: "
    ++ endName
    ++ "\n    - Lieux visités (Points d\x27intérêts): "
    ++ poiNames
    ++ "\n    - Style: "
    ++ styleStr
    ++ "\n    - Langue: "
    ++ langStr
    ++ "\n    \n    INSTRUCTIONS:\n    Intègre les points d\x27intérêts naturellement dans l\x27histoire.\n    Utilise le style demandé pour donner le ton (ex: si Fantastique, transforme le trajet en quête épique).\n    Sois créatif mais garde une cohérence géographique.\n  "

/-- Embeds `generateStoryStream` (src/services/geminiService.ts).  `apiKey`
models `process.env.API_KEY` (`none` = unset).  A falsy key throws before
the client is constructed or any prompt is built: the result is an error
carrying the source's message and no `GenRequest` exists.  Otherwise the
request (model + prompt) that would be issued is returned. -/
def generateStoryStream (apiKey : Option String) (startLoc endLoc : Location)
    (pois : List POI) (config : StoryConfig) : Except String GenRequest :=
  if jsStrTruthy apiKey = false then
    Except.error "API Key is missing. Please set process.env.API_KEY."
  else
    Except.ok
      { model := "gemini-3-flash-preview"
        contents := buildPrompt startLoc.name endLoc.name
          (let poiNames := joinComma (pois.map (fun p => p.name))
           if poiNames = "" then "quelques lieux mystérieux" else poiNames)
          config.style.str
          (if config.language.str = "Auto" then "Français" else config.language.str) }

/-- Claim C7: when the API credential is absent the operation fails with an
error before any network request is attempted — the result is the error
message and is never an issued request. -/
theorem story_fail_fast :
    ∀ (apiKey : Option String) startLoc endLoc pois config,
      jsStrTruthy apiKey = false →
      generateStoryStream apiKey startLoc endLoc pois config
        = Except.error "API Key is missing. Please set process.env.API_KEY." ∧
      ∀ req, generateStoryStream apiKey startLoc endLoc pois config
        ≠ Except.ok req := by
  intro apiKey s e pois config h
  constructor
  · simp [generateStoryStream, h]
  · intro req
    simp [generateStoryStream, h]

/-- Witness for C7: an unset `process.env.API_KEY` with a concrete trip. -/
theorem story_fail_fast_witness :
    generateStoryStream none ⟨1, 2, "A"⟩ ⟨3, 4, "B"⟩ []
        ⟨StoryStyle.historical, StoryLanguage.auto⟩
      = Except.error "API Key is missing. Please set process.env.API_KEY." :=
  (story_fail_fast none ⟨1, 2, "A"⟩ ⟨3, 4, "B"⟩ []
    ⟨StoryStyle.historical, StoryLanguage.auto⟩ (by decide)).1

/-- The story values published by the streaming loop of
`handleGenerateStory` (src/App.tsx lines 83-92), starting from accumulator
`acc`: each chunk whose `text` is truthy appends to the accumulator and
publishes it (`setStory(fullStory)`); falsy chunks publish nothing. -/
def storyStepsFrom (acc : String) : List (Option String) → List String
  | [] => []
  | o :: rest =>
    match o with
    | some t => if t = "" then storyStepsFrom acc rest
                else (acc ++ t) :: storyStepsFrom (acc ++ t) rest
    | none => storyStepsFrom acc rest

/-- The sequence of observable values of the `story` state across one call
of `handleGenerateStory` (src/App.tsx lines 76-101) whose stream delivers
`frags` (each chunk's `text`, `none` = `undefined`): the prior story, then
the reset to the empty string (`setStory('')` before the request), then the
published accumulations.  When a waypoint is missing the handler returns at
the guard and the story stays at `prior`. -/
def handleGenerateStory (startLoc endLoc : Option Location) (prior : String)
    (frags : List (Option String)) : List String :=
  match startLoc, endLoc with
  | some _, some _ => prior :: "" :: storyStepsFrom "" frags
  | _, _ => [prior]

/-- Concatenation, in arrival order, of the fragments received so far
(absent text contributes nothing) — the spec-side description of the story
after a prefix of the stream. -/
def fragConcat : List (Option String) → String
  | [] => ""
  | o :: rest => o.getD "" ++ fragConcat rest

theorem storyStepsFrom_concat (frags : List (Option String)) :
    ∀ acc s, s ∈ storyStepsFrom acc frags →
      ∃ k, k ≤ frags.length ∧ 0 < k ∧ s = acc ++ fragConcat (frags.take k) := by
  induction frags with
  | nil => intro acc s hs; simp [storyStepsFrom] at hs
  | cons o rest ih =>
      intro acc s hs
      cases o with
      | none =>
          simp only [storyStepsFrom] at hs
          obtain ⟨k, hk, hk0, hsv⟩ := ih acc s hs
          refine ⟨k + 1, by simpa using Nat.succ_le_succ hk, Nat.succ_pos k, ?_⟩
          simpa [fragConcat, String.empty_append] using hsv
      | some t =>
          by_cases ht : t = ""
          · simp only [storyStepsFrom, ht, if_pos rfl] at hs
            obtain ⟨k, hk, hk0, hsv⟩ := ih acc s hs
            refine ⟨k + 1, by simpa using Nat.succ_le_succ hk, Nat.succ_pos k, ?_⟩
            simpa [fragConcat, ht, String.empty_append] using hsv
          · simp only [storyStepsFrom, if_neg ht] at hs
            rw [List.mem_cons] at hs
            rcases hs with hs | hs
            · refine ⟨1, by simp, Nat.one_pos, ?_⟩
              simp [hs, fragConcat, String.append_empty]
            · obtain ⟨k, hk, hk0, hsv⟩ := ih (acc ++ t) s hs
              refine ⟨k + 1, by simpa using Nat.succ_le_succ hk, Nat.succ_pos k, ?_⟩
              simp only [List.take_succ_cons, fragConcat, Option.getD_some]
              rw [hsv, String.append_assoc]

/-- Claim C10: starting a story generation with both waypoints set resets
the story to the empty string before any fragment is appended, and every
story value observable during the generation is exactly the concatenation,
in arrival order, of the fragments received so far — independent of the
prior story. -/
theorem story_reset_and_prefix_concat :
    ∀ a b prior frags,
      (handleGenerateStory (some a) (some b) prior frags).get? 1 = some "" ∧
      (∀ s, s ∈ (handleGenerateStory (some a) (some b) prior frags).drop 1 →
        ∃ k, k ≤ frags.length ∧ s = fragConcat (frags.take k)) := by
  intro a b prior frags
  constructor
  · rfl
  · intro s hs
    simp only [handleGenerateStory, List.drop_succ_cons, List.drop_zero] at hs
    rw [List.mem_cons] at hs
    rcases hs with hs | hs
    · exact ⟨0, Nat.zero_le _, by simp [hs, fragConcat]⟩
    · obtain ⟨k, hk, _, hsv⟩ := storyStepsFrom_concat frags "" s hs
      refine ⟨k, hk, ?_⟩
      rw [hsv, String.empty_append]

/-- Witness for C10: a concrete stream with an absent-text chunk, applied
after a non-empty prior story. -/
theorem story_reset_and_prefix_concat_witness :
    (handleGenerateStory (some ⟨1, 2, "A"⟩) (some ⟨3, 4, "B"⟩) "OLD"
        [some "Il", none, some " était"]).get? 1 = some "" ∧
    ∃ k, k ≤ 3 ∧ "Il était"
      = fragConcat ([some "Il", none, some " était"].take k) := by
  have h := story_reset_and_prefix_concat ⟨1, 2, "A"⟩ ⟨3, 4, "B"⟩ "OLD"
    [some "Il", none, some " était"]
  exact ⟨h.1, h.2 "Il était" (by decide)⟩

/-- A bare coordinate pair (latitude, longitude). -/
abbrev Coord := ℚ × ℚ

/-- State of the POI-fetch effect of src/App.tsx (lines 55-74) together
with its environment: the current end coordinate, the displayed POI list,
the destination that list was fetched for (`poisSource`, bookkeeping used
only to state properties), the pending `getPOIs` requests, and a fresh-id
counter.  The effect has no cleanup function and no staleness token, so a
pending request stays able to call `setPois` forever. -/
structure PoiEffectState where
  currentEnd : Option Coord
  pois : List POI
  poisSource : Option Coord
  pending : List (Nat × Coord)
  nextId : Nat
deriving DecidableEq, Repr

/-- Events at which the UI event loop interleaves for the POI effect: the
`end` state changes (running the effect synchronously), or a pending
`getPOIs` promise resolves (`none` result = the fetch failed, which the
catch turns into `setPois([])`). -/
inductive PoiEvent where
  | setEnd (d : Option Coord)
  | resolve (i : Nat) (result : Option (List POI))
deriving DecidableEq, Repr

/-- The coordinate a pending request with id `i` was issued for. -/
def lookupReq (i : Nat) (l : List (Nat × Coord)) : Option Coord :=
  (l.find? (fun p => p.1 == i)).map (fun p => p.2)

/-- Drop the pending request with id `i`. -/
def removeReq (i : Nat) (l : List (Nat × Coord)) : List (Nat × Coord) :=
  l.filter (fun p => p.1 != i)

/-- One transition of the POI effect.  `setEnd (some c)` embeds the effect
body for a set destination: issue `getPOIs` for `c` (no token, no
cancellation of older requests).  `setEnd none` embeds the else branch
`setPois([])`.  `resolve i r` embeds a pending promise resolving: the
handler applies `setPois` unconditionally — this is exactly what the source
does, there is no check that `i` is still the relevant request. -/
def poiStep (st : PoiEffectState) : PoiEvent → PoiEffectState
  | .setEnd d =>
      match d with
      | some c =>
          { st with
            currentEnd := some c,
            pending := st.pending ++ [(st.nextId, c)],
            nextId := st.nextId + 1 }
      | none => { st with currentEnd := none, pois := [], poisSource := none }
  | .resolve i result =>
      match lookupReq i st.pending with
      | some c =>
          match result with
          | some newPois =>
              { st with
                pois := newPois, poisSource := some c,
                pending := removeReq i st.pending }
          | none =>
              { st with
                pois := [], poisSource := none,
                pending := removeReq i st.pending }
      | none => st

/-- Initial POI-effect state (no destination, empty list). -/
def initPoiState : PoiEffectState := ⟨none, [], none, [], 0⟩

/-- Run a sequence of POI-effect events from the initial state. -/
def runPoi (evs : List PoiEvent) : PoiEffectState :=
  evs.foldl poiStep initPoiState

/-- A demonstration POI (contents irrelevant). -/
def demoPoi : POI := ⟨7, 1, 1, "Musée", "museum", none, none, none⟩

/-- The racing schedule: destination set to (1,1), then changed to (2,2)
while the first fetch is pending, then the first (stale) fetch resolves. -/
def poiStaleTrace : List PoiEvent :=
  [PoiEvent.setEnd (some (1, 1)), PoiEvent.setEnd (some (2, 2)),
   PoiEvent.resolve 0 (some [demoPoi])]

/-- Claim C1 is violated by the code: after the destination changes from
D1 = (1,1) to D2 = (2,2) with the D1 fetch still pending, the late D1
response is applied verbatim — the final state displays the POIs fetched
for D1 while the current end coordinate is D2.  The closing conjunct
refutes the claim as universally stated. -/
theorem poi_stale_response_applied :
    (runPoi poiStaleTrace).currentEnd = some (2, 2) ∧
    (runPoi poiStaleTrace).poisSource = some (1, 1) ∧
    (runPoi poiStaleTrace).pois = [demoPoi] ∧
    ¬ (∀ evs c, (runPoi evs).poisSource = some c →
        (runPoi evs).currentEnd = some c) := by
  refine ⟨by decide, by decide, by decide, ?_⟩
  intro h
  have h2 := h poiStaleTrace (1, 1) (by decide)
  have h3 : (runPoi poiStaleTrace).currentEnd = some (2, 2) := by decide
  rw [h2] at h3
  have : ((1 : ℚ), (1 : ℚ)) = ((2 : ℚ), (2 : ℚ)) := by
    injection h3
  exact absurd this (by decide)

/-- The (start, end, transport-mode) triple a route request is issued for. -/
structure RouteInputs where
  startC : Coord
  endC : Coord
  mode : TransportMode
deriving DecidableEq, Repr

/-- A route summary: total distance (meters) and total time (seconds), the
`routes[0].summary` the `routesfound` handler extracts
(src/components/MapComponent.tsx lines 151-157). -/
structure RouteSummary where
  totalDistance : ℚ
  totalTime : ℚ
deriving DecidableEq, Repr

/-- State of the `RoutingMachine` effect (src/components/MapComponent.tsx
lines 98-174) and its environment.  `displayed` is the route summary state
(`setRouteSummary`), tagged with the inputs of the request that produced it
(bookkeeping for stating properties).  `issued` holds every request whose
`routesfound` subscription exists; the source registers the handler with
`control.on(...)` and never unsubscribes, and removing a control from the
map does not revoke its pending router callback, so entries are never
removed.  `attached` is the control currently added to the map; `latest`
is the most recently issued request. -/
structure RouteState where
  displayed : Option (RouteInputs × RouteSummary)
  issued : List (Nat × RouteInputs)
  attached : Option Nat
  latest : Option (Nat × RouteInputs)
  nextId : Nat
deriving DecidableEq, Repr

/-- The inputs of the issued request with id `i`. -/
def lookupRoute (i : Nat) (l : List (Nat × RouteInputs)) : Option RouteInputs :=
  (l.find? (fun p => p.1 == i)).map (fun p => p.2)

/-- The teardown half of the `RoutingMachine` effect body: `onRouteFound(null)`
then `map.removeControl` of the previous control
(src/components/MapComponent.tsx lines 103-114). -/
def clearPhase (st : RouteState) : RouteState :=
  { st with displayed := none, attached := none }

/-- The request half of the effect body: when both waypoints are set, build
a routing control for the current (start, end, mode), subscribe its
`routesfound` handler, and add it to the map
(src/components/MapComponent.tsx lines 116-166). -/
def issuePhase (st : RouteState) (s e : Option Coord) (m : TransportMode) :
    RouteState :=
  match s, e with
  | some a, some b =>
      { st with
        issued := st.issued ++ [(st.nextId, ⟨a, b, m⟩)],
        attached := some st.nextId,
        latest := some (st.nextId, (⟨a, b, m⟩ : RouteInputs)),
        nextId := st.nextId + 1 }
  | _, _ => st

/-- The whole `RoutingMachine` effect run on a change of start, end or
transport mode: reset the summary, remove the previous control, then (when
both waypoints are set) issue the new request. -/
def routeEffect (st : RouteState) (s e : Option Coord) (m : TransportMode) :
    RouteState :=
  match s, e with
  | some a, some b =>
      { st with
        displayed := none,
        issued := st.issued ++ [(st.nextId, ⟨a, b, m⟩)],
        attached := some st.nextId,
        latest := some (st.nextId, (⟨a, b, m⟩ : RouteInputs)),
        nextId := st.nextId + 1 }
  | _, _ => { st with displayed := none, attached := none }

/-- Events of the routing orchestration: an input change (running the
effect), or a `routesfound` notification arriving for request `i`.  The
handler body (lines 151-157) calls `onRouteFound(routes[0].summary)`
unconditionally, with no check that `i` is still the current request, so a
notification for any ever-issued request updates the displayed summary. -/
inductive RouteEvent where
  | change (s e : Option Coord) (m : TransportMode)
  | found (i : Nat) (sum : RouteSummary)
deriving DecidableEq, Repr

/-- One transition of the routing orchestration. -/
def routeStep (st : RouteState) : RouteEvent → RouteState
  | .change s e m => routeEffect st s e m
  | .found i sum =>
      match lookupRoute i st.issued with
      | some inp => { st with displayed := some (inp, sum) }
      | none => st

/-- Initial routing state: nothing displayed, nothing issued. -/
def initRouteState : RouteState := ⟨none, [], none, none, 0⟩

/-- Run a sequence of routing events from the initial state. -/
def runRoute (evs : List RouteEvent) : RouteState :=
  evs.foldl routeStep initRouteState

/-- The C2 racing schedule: requests issued for (A,B,car) then (A,C,foot);
the second resolves first, then the first (stale) response arrives. -/
def routeStaleTrace : List RouteEvent :=
  [RouteEvent.change (some (0, 0)) (some (1, 1)) TransportMode.car,
   RouteEvent.change (some (0, 0)) (some (2, 2)) TransportMode.foot,
   RouteEvent.found 1 ⟨2000, 120⟩,
   RouteEvent.found 0 ⟨1000, 60⟩]

/-- Claim C2 is violated by the code: with requests issued for (A,B,DRIVING)
then (A,C,WALKING) and the first resolving after the second, the final
displayed summary is the one for the superseded (A,B,DRIVING) request, not
the most recently issued inputs.  The closing conjunct refutes the claim as
universally stated. -/
theorem route_stale_response_displayed :
    (runRoute routeStaleTrace).displayed
      = some (⟨(0, 0), (1, 1), TransportMode.car⟩, ⟨1000, 60⟩) ∧
    (runRoute routeStaleTrace).latest
      = some (1, ⟨(0, 0), (2, 2), TransportMode.foot⟩) ∧
    ¬ (∀ evs inp sum j jinp,
        (runRoute evs).displayed = some (inp, sum) →
        (runRoute evs).latest = some (j, jinp) → inp = jinp) := by
  refine ⟨by decide, by decide, ?_⟩
  intro h
  have h2 := h routeStaleTrace ⟨(0, 0), (1, 1), TransportMode.car⟩ ⟨1000, 60⟩
    1 ⟨(0, 0), (2, 2), TransportMode.foot⟩ (by decide) (by decide)
  have : ((1 : ℚ), (1 : ℚ)) = ((2 : ℚ), (2 : ℚ)) := congrArg RouteInputs.endC h2
  exact absurd this (by decide)

/-- The C3 racing schedule: a route request for (S,E,car) is issued; the
mode changes to foot while that request is still pending (re-entering the
requesting state, clearing the summary and issuing the foot request); then
the car response arrives, late.  Each request delivers exactly one
`routesfound` notification, so the schedule is an execution the source can
exhibit. -/
def summaryStaleTrace : List RouteEvent :=
  [RouteEvent.change (some (3, 3)) (some (4, 4)) TransportMode.car,
   RouteEvent.change (some (3, 3)) (some (4, 4)) TransportMode.foot,
   RouteEvent.found 0 ⟨500, 30⟩]

/-- Counterexample to claim C3 as stated: immediately after the mode change
from car to foot the summary is indeed cleared in the same step, but at a
later observable point the superseded (S,E,car) request resolves and its
summary is displayed while the current triple is (S,E,foot) — so "at no
observable point is a summary displayed that belongs to a superseded
triple" is false. -/
theorem stale_summary_reappears :
    (runRoute (summaryStaleTrace.take 2)).displayed = none ∧
    (runRoute summaryStaleTrace).displayed
      = some (⟨(3, 3), (4, 4), TransportMode.car⟩, ⟨500, 30⟩) ∧
    (runRoute summaryStaleTrace).latest
      = some (1, ⟨(3, 3), (4, 4), TransportMode.foot⟩) ∧
    TransportMode.car ≠ TransportMode.foot := by
  refine ⟨by decide, by decide, by decide, by decide⟩

/-- Claim C3, amended to what the code guarantees: on every change of
start, end or transport mode the effect clears the displayed summary and
removes the previous overlay control in the same synchronous step, before
the new request is issued — the effect body equals teardown (`clearPhase`)
followed by request issue (`issuePhase`), the teardown leaves no summary
and no attached control, and no summary is displayed at the end of the
step.  (A stale summary can still reappear later: see the counterexample.) -/
theorem route_clear_before_request :
    ∀ st s e m,
      routeEffect st s e m = issuePhase (clearPhase st) s e m ∧
      (clearPhase st).displayed = none ∧
      (clearPhase st).attached = none ∧
      (routeEffect st s e m).displayed = none := by
  intro st s e m
  refine ⟨?_, rfl, rfl, ?_⟩
  · cases s with
    | none => cases e <;> rfl
    | some a => cases e <;> rfl
  · cases s with
    | none => cases e <;> rfl
    | some a => cases e <;> rfl

/-- The character for a decimal digit value (used by the model of
JavaScript number printing). -/
def digitChar (d : Nat) : Char :=
  match d with
  | 0 => '0'
  | 1 => '1'
  | 2 => '2'
  | 3 => '3'
  | 4 => '4'
  | 5 => '5'
  | 6 => '6'
  | 7 => '7'
  | 8 => '8'
  | 9 => '9'
  | _ => '?'

/-- The decimal value of a digit character. -/
def digitVal (c : Char) : Nat := c.toNat - 48

/-- Whether a character is an ASCII decimal digit. -/
def isDigitChar (c : Char) : Bool := 48 ≤ c.toNat && c.toNat ≤ 57

/-- JavaScript `String(n)` for a natural number: its decimal digits, most
significant first. -/
def natChars (n : Nat) : List Char :=
  if n = 0 then ['0'] else (Nat.digits 10 n).reverse.map digitChar

/-- Reading a digit-character list, most significant first. -/
def natFromDigits (l : List Char) : Nat :=
  l.foldl (fun a c => 10 * a + digitVal c) 0

/-- A JavaScript number in plain decimal form: sign, integer part, fraction
digits (most significant first).  This models the coordinate values the app
serializes: `String(x)` of a finite double in the non-exponent range prints
exactly such a decimal, and re-parsing it recovers the double; the model
works with the decimal itself.  Exponent-form output (magnitude ≥ 1e21 or
< 1e-6) is outside the modelled fragment. -/
structure JsDec where
  neg : Bool
  ip : Nat
  frac : List Nat
deriving DecidableEq, Repr

/-- Well-formedness of the decimal: every fraction entry is a digit. -/
def JsDec.wf (x : JsDec) : Prop := ∀ d ∈ x.frac, d < 10

instance (x : JsDec) : Decidable x.wf := by
  unfold JsDec.wf; infer_instance

/-- JavaScript `String(x)` over the decimal model: optional minus sign,
integer digits, and when the fraction is non-empty a point followed by the
fraction digits. -/
def numToString (x : JsDec) : List Char :=
  (if x.neg then ['-'] else []) ++ natChars x.ip ++
  (match x.frac with
   | [] => []
   | f => '.' :: f.map digitChar)

/-- Sign handling of `parseFloat`: an optional leading `-` or `+`. -/
def parseSign : List Char → Bool × List Char
  | c :: r =>
    if c = '-' then (true, r)
    else if c = '+' then (false, c :: r)
    else (false, c :: r)
  | [] => (false, [])

/-- Fraction digits of `parseFloat`: the digits following a point. -/
def parseFracDigits : List Char → List Char
  | c :: r => if c = '.' then (r.span isDigitChar).1 else []
  | [] => []

/-- JavaScript `parseFloat` restricted to the plain-decimal fragment:
optional sign, integer digits, optional point and fraction digits; trailing
garbage is ignored; no digit at all gives NaN (`none`).  (Exponent suffixes
and leading whitespace, which the app's inputs never contain on the
round-trip path, are not modelled.  A leading `+` sign is consumed by the
real `parseFloat`; the model treats it as terminating the number, which
only matters for inputs the encoder never produces.) -/
def parseFloatChars (s : List Char) : Option JsDec :=
  let sg := parseSign s
  let ipd := (sg.2.span isDigitChar).1
  let s2 := (sg.2.span isDigitChar).2
  let fracd := parseFracDigits s2
  if ipd = [] && fracd = [] then none
  else some ⟨sg.1, natFromDigits ipd, fracd.map digitVal⟩

/-- The characters `encodeURIComponent` leaves unescaped:
`A-Z a-z 0-9 - _ . ! ~ * \x27 ( )`. -/
def isUnreservedChar (c : Char) : Bool :=
  (65 ≤ c.toNat && c.toNat ≤ 90) || (97 ≤ c.toNat && c.toNat ≤ 122) ||
  (48 ≤ c.toNat && c.toNat ≤ 57) ||
  c.toNat == 45 || c.toNat == 95 || c.toNat == 46 || c.toNat == 33 ||
  c.toNat == 126 || c.toNat == 42 || c.toNat == 39 || c.toNat == 40 ||
  c.toNat == 41

/-- The UTF-8 bytes of a Unicode scalar value. -/
def utf8Bytes (n : Nat) : List Nat :=
  if n < 128 then [n]
  else if n < 2048 then [192 + n / 64, 128 + n % 64]
  else if n < 65536 then [224 + n / 4096, 128 + n / 64 % 64, 128 + n % 64]
  else [240 + n / 262144, 128 + n / 4096 % 64, 128 + n / 64 % 64, 128 + n % 64]

/-- Uppercase hexadecimal digit character (as `encodeURIComponent` emits). -/
def hexCharUp (n : Nat) : Char :=
  match n with
  | 0 => '0'
  | 1 => '1'
  | 2 => '2'
  | 3 => '3'
  | 4 => '4'
  | 5 => '5'
  | 6 => '6'
  | 7 => '7'
  | 8 => '8'
  | 9 => '9'
  | 10 => 'A'
  | 11 => 'B'
  | 12 => 'C'
  | 13 => 'D'
  | 14 => 'E'
  | _ => 'F'

/-- The value of a hexadecimal digit character (either case), `none` for a
non-hex character (`decodeURIComponent` then throws). -/
def hexVal (c : Char) : Option Nat :=
  if 48 ≤ c.toNat ∧ c.toNat ≤ 57 then some (c.toNat - 48)
  else if 97 ≤ c.toNat ∧ c.toNat ≤ 102 then some (c.toNat - 87)
  else if 65 ≤ c.toNat ∧ c.toNat ≤ 70 then some (c.toNat - 55)
  else none

/-- The three-character escape `%HH` of one byte. -/
def percentByte (b : Nat) : List Char :=
  ['%', hexCharUp (b / 16), hexCharUp (b % 16)]

/-- `encodeURIComponent` on one character: unreserved characters pass
through, every other character becomes the percent-escapes of its UTF-8
bytes. -/
def encodeChar (c : Char) : List Char :=
  if isUnreservedChar c then [c] else ((utf8Bytes c.toNat).map percentByte).flatten

/-- JavaScript `encodeURIComponent` over a sequence of scalar values. -/
def encodeURIComp (s : List Char) : List Char :=
  (s.map encodeChar).flatten

/-- Intermediate token of the `decodeURIComponent` model: a plain character
or one byte decoded from a `%HH` escape. -/
inductive UriTok where
  | chr (c : Char)
  | byte (b : Nat)
deriving DecidableEq, Repr

mutual

/-- First phase of `decodeURIComponent`: turn every `%HH` escape into a
byte token; a `%` not followed by two hex digits is a URIError (`none`). -/
def tokenize : List Char → Option (List UriTok)
  | [] => some []
  | c :: cs =>
    if c = '%' then tokenizeEsc cs
    else (tokenize cs).map (fun ts => UriTok.chr c :: ts)
termination_by s => s.length

/-- The continuation of `tokenize` after a `%`. -/
def tokenizeEsc : List Char → Option (List UriTok)
  | h1 :: h2 :: rest =>
    (match hexVal h1, hexVal h2 with
     | some x, some y =>
        (tokenize rest).map (fun ts => UriTok.byte (16 * x + y) :: ts)
     | _, _ => none)
  | [_] => none
  | [] => none
termination_by s => s.length

end

/-- Whether a byte is a UTF-8 continuation byte. -/
def contOk (b : Nat) : Bool := 128 ≤ b && b < 192

/-- One step of the second phase of `decodeURIComponent`: consume the
scalar value starting at token `t` (possibly eating continuation-byte
tokens from `ts`), following the UTF-8 lead-byte ranges; `none` is a
URIError (malformed or incomplete sequence, or a value that is not a
Unicode scalar).  (This model accepts overlong encodings the browser
rejects; that only widens the accepted inputs and is never relied on.) -/
def detokStep (t : UriTok) (ts : List UriTok) : Option (Char × List UriTok) :=
  match t with
  | UriTok.chr c => some (c, ts)
  | UriTok.byte b =>
    if b < 128 then
      if Nat.isValidChar b then some (Char.ofNat b, ts) else none
    else if b < 192 then none
    else if b < 224 then
      match ts with
      | UriTok.byte b2 :: ts2 =>
        if contOk b2 then
          (if Nat.isValidChar ((b - 192) * 64 + (b2 - 128)) then
            some (Char.ofNat ((b - 192) * 64 + (b2 - 128)), ts2)
          else none)
        else none
      | _ => none
    else if b < 240 then
      match ts with
      | UriTok.byte b2 :: UriTok.byte b3 :: ts2 =>
        if contOk b2 && contOk b3 then
          (if Nat.isValidChar (((b - 224) * 64 + (b2 - 128)) * 64 + (b3 - 128)) then
            some (Char.ofNat (((b - 224) * 64 + (b2 - 128)) * 64 + (b3 - 128)), ts2)
          else none)
        else none
      | _ => none
    else
      match ts with
      | UriTok.byte b2 :: UriTok.byte b3 :: UriTok.byte b4 :: ts2 =>
        if contOk b2 && contOk b3 && contOk b4 then
          (if Nat.isValidChar
              ((((b - 240) * 64 + (b2 - 128)) * 64 + (b3 - 128)) * 64 + (b4 - 128)) then
            some (Char.ofNat
              ((((b - 240) * 64 + (b2 - 128)) * 64 + (b3 - 128)) * 64 + (b4 - 128)), ts2)
          else none)
        else none
      | _ => none

set_option maxRecDepth 8000 in
theorem detokStep_suffix (t : UriTok) (ts : List UriTok) (c : Char)
    (rest : List UriTok) (h : detokStep t ts = some (c, rest)) :
    rest.length ≤ ts.length := by
  cases t with
  | chr a =>
      simp only [detokStep] at h
      cases h
      exact le_refl _
  | byte b =>
      simp only [detokStep] at h
      repeat' split at h
      all_goals try cases h
      all_goals try simp only [List.length_cons]
      all_goals omega

/-- Second phase of `decodeURIComponent`: repeatedly consume one scalar
value via `detokStep`. -/
def detok (ts : List UriTok) : Option (List Char) :=
  match ts with
  | [] => some []
  | t :: rest =>
    match h : detokStep t rest with
    | some p => (detok p.2).map (fun l => p.1 :: l)
    | none => none
termination_by ts.length
decreasing_by
  have hs := detokStep_suffix t rest p.1 p.2 (by rw [h])
  simp only [List.length_cons]
  omega

/-- JavaScript `decodeURIComponent`: tokenization then UTF-8 reassembly;
`none` models a thrown URIError. -/
def decodeURIComp (s : List Char) : Option (List Char) :=
  (tokenize s).bind detok

/-- The token sequence `tokenize` recovers from one encoded character. -/
def encTok (c : Char) : List UriTok :=
  if isUnreservedChar c then [UriTok.chr c] else (utf8Bytes c.toNat).map UriTok.byte

theorem hexVal_hexCharUp (n : Nat) (h : n < 16) :
    hexVal (hexCharUp n) = some n := by
  interval_cases n <;> rfl

theorem charToNat_lt (c : Char) : c.toNat < 1114112 := by
  have h := c.valid
  have he : c.toNat = c.val.toNat := rfl
  rcases h with h | h <;> omega

theorem charToNat_valid (c : Char) : Nat.isValidChar c.toNat := c.valid

theorem utf8Bytes_lt (n : Nat) (h : n < 1114112) :
    ∀ b ∈ utf8Bytes n, b < 256 := by
  intro b hb
  unfold utf8Bytes at hb
  split at hb
  · simp at hb; omega
  · split at hb
    · simp at hb
      rcases hb with hb | hb <;> omega
    · split at hb
      · simp at hb
        rcases hb with hb | hb | hb <;> omega
      · simp at hb
        rcases hb with hb | hb | hb | hb <;> omega

theorem tokenize_percentByte (b : Nat) (h : b < 256) (rest : List Char) :
    tokenize (percentByte b ++ rest)
      = (tokenize rest).map (fun ts => UriTok.byte b :: ts) := by
  have h1 : hexVal (hexCharUp (b / 16)) = some (b / 16) :=
    hexVal_hexCharUp _ (by omega)
  have h2 : hexVal (hexCharUp (b % 16)) = some (b % 16) :=
    hexVal_hexCharUp _ (by omega)
  have hb : 16 * (b / 16) + b % 16 = b := by omega
  show tokenize ('%' :: hexCharUp (b / 16) :: hexCharUp (b % 16) :: rest) = _
  rw [tokenize, if_pos rfl, tokenizeEsc]
  simp only [h1, h2, hb]

theorem tokenize_bytes (bs : List Nat) (hb : ∀ b ∈ bs, b < 256)
    (rest : List Char) :
    tokenize ((bs.map percentByte).flatten ++ rest)
      = (tokenize rest).map (fun ts => bs.map UriTok.byte ++ ts) := by
  induction bs with
  | nil => simp
  | cons b bs ih =>
      have hb0 : b < 256 := hb b (List.mem_cons_self _ _)
      have hbs : ∀ x ∈ bs, x < 256 := fun x hx => hb x (List.mem_cons_of_mem _ hx)
      simp only [List.map_cons, List.flatten_cons, List.append_assoc]
      rw [tokenize_percentByte b hb0, ih hbs]
      cases tokenize rest <;> rfl

theorem unreserved_ne_percent (c : Char) (h : isUnreservedChar c = true) :
    ¬ (c = '%') := by
  intro hc
  rw [hc] at h
  exact absurd h (by decide)

theorem tokenize_encodeChar (c : Char) (rest : List Char) :
    tokenize (encodeChar c ++ rest)
      = (tokenize rest).map (fun ts => encTok c ++ ts) := by
  by_cases h : isUnreservedChar c = true
  · have hne := unreserved_ne_percent c h
    simp only [encodeChar, encTok, if_pos h, List.singleton_append]
    rw [tokenize, if_neg hne]
  · simp only [encodeChar, encTok, if_neg h]
    have hlt := utf8Bytes_lt c.toNat (charToNat_lt c)
    rw [tokenize_bytes _ hlt]

theorem tokenize_encode (s : List Char) :
    tokenize (encodeURIComp s) = some ((s.map encTok).flatten) := by
  induction s with
  | nil => simp [encodeURIComp, tokenize]
  | cons c cs ih =>
      simp only [encodeURIComp, List.map_cons, List.flatten_cons]
      rw [show ((cs.map encodeChar).flatten : List Char)
            = encodeURIComp cs from rfl]
      rw [tokenize_encodeChar, ih]
      rfl

theorem contOk_mod (n : Nat) : contOk (128 + n % 64) = true := by
  have h : n % 64 < 64 := Nat.mod_lt _ (by omega)
  simp only [contOk, Bool.and_eq_true, decide_eq_true_eq]
  omega

theorem detok_nil : detok [] = some [] := by
  rw [detok]

theorem detok_cons (t : UriTok) (rest : List UriTok) (c : Char)
    (ts2 : List UriTok) (h : detokStep t rest = some (c, ts2)) :
    detok (t :: rest) = (detok ts2).map (fun l => c :: l) := by
  rw [detok]
  split
  · rename_i p hp
    rw [h] at hp
    cases hp
    rfl
  · rename_i hp
    rw [h] at hp
    cases hp

theorem detok_encTok (c : Char) (ts : List UriTok) :
    detok (encTok c ++ ts) = (detok ts).map (fun l => c :: l) := by
  by_cases h : isUnreservedChar c = true
  · simp only [encTok, if_pos h, List.singleton_append]
    exact detok_cons _ _ c ts rfl
  · simp only [encTok, if_neg h]
    have hv : Nat.isValidChar c.toNat := charToNat_valid c
    have hofn : Char.ofNat c.toNat = c := Char.ofNat_toNat c
    have hlt : c.toNat < 1114112 := charToNat_lt c
    by_cases h1 : c.toNat < 128
    · rw [utf8Bytes, if_pos h1]
      simp only [List.map_cons, List.map_nil, List.cons_append, List.nil_append]
      refine detok_cons _ _ c ts ?_
      simp only [detokStep]
      rw [if_pos h1, if_pos hv, hofn]
    · by_cases h2 : c.toNat < 2048
      · rw [utf8Bytes, if_neg h1, if_pos h2]
        simp only [List.map_cons, List.map_nil, List.cons_append, List.nil_append]
        refine detok_cons _ _ c ts ?_
        have ha : ¬ (192 + c.toNat / 64 < 128) := by omega
        have hb : ¬ (192 + c.toNat / 64 < 192) := by omega
        have hc : 192 + c.toNat / 64 < 224 := by omega
        have harith : (192 + c.toNat / 64 - 192) * 64 + (128 + c.toNat % 64 - 128)
            = c.toNat := by omega
        simp only [detokStep, if_neg ha, if_neg hb, if_pos hc, contOk_mod,
          if_true, harith]
        rw [if_pos hv, hofn]
      · by_cases h3 : c.toNat < 65536
        · rw [utf8Bytes, if_neg h1, if_neg h2, if_pos h3]
          simp only [List.map_cons, List.map_nil, List.cons_append, List.nil_append]
          refine detok_cons _ _ c ts ?_
          have ha : ¬ (224 + c.toNat / 4096 < 128) := by omega
          have hb : ¬ (224 + c.toNat / 4096 < 192) := by omega
          have hc : ¬ (224 + c.toNat / 4096 < 224) := by omega
          have hd : 224 + c.toNat / 4096 < 240 := by omega
          have harith : ((224 + c.toNat / 4096 - 224) * 64
              + (128 + c.toNat / 64 % 64 - 128)) * 64 + (128 + c.toNat % 64 - 128)
              = c.toNat := by omega
          simp only [detokStep, if_neg ha, if_neg hb, if_neg hc, if_pos hd,
            contOk_mod, Bool.and_self, if_true, harith]
          rw [if_pos hv, hofn]
        · rw [utf8Bytes, if_neg h1, if_neg h2, if_neg h3]
          simp only [List.map_cons, List.map_nil, List.cons_append, List.nil_append]
          refine detok_cons _ _ c ts ?_
          have ha : ¬ (240 + c.toNat / 262144 < 128) := by omega
          have hb : ¬ (240 + c.toNat / 262144 < 192) := by omega
          have hc : ¬ (240 + c.toNat / 262144 < 224) := by omega
          have hd : ¬ (240 + c.toNat / 262144 < 240) := by omega
          have harith : (((240 + c.toNat / 262144 - 240) * 64
              + (128 + c.toNat / 4096 % 64 - 128)) * 64
              + (128 + c.toNat / 64 % 64 - 128)) * 64 + (128 + c.toNat % 64 - 128)
              = c.toNat := by omega
          simp only [detokStep, if_neg ha, if_neg hb, if_neg hc, if_neg hd,
            contOk_mod, Bool.and_self, if_true, harith]
          rw [if_pos hv, hofn]

theorem detok_encTok_flatten (s : List Char) (ts : List UriTok) :
    detok ((s.map encTok).flatten ++ ts) = (detok ts).map (fun l => s ++ l) := by
  induction s with
  | nil =>
      simp only [List.map_nil, List.flatten_nil, List.nil_append]
      cases detok ts <;> rfl
  | cons c cs ih =>
      simp only [List.map_cons, List.flatten_cons, List.append_assoc]
      rw [detok_encTok, ih]
      cases detok ts <;> rfl

/-- `decodeURIComponent` is a left inverse of `encodeURIComponent` on every
sequence of Unicode scalar values. -/
theorem decode_encode_uri (s : List Char) :
    decodeURIComp (encodeURIComp s) = some s := by
  unfold decodeURIComp
  rw [tokenize_encode]
  show detok ((s.map encTok).flatten) = some s
  rw [← List.append_nil ((s.map encTok).flatten), detok_encTok_flatten, detok_nil]
  simp

theorem digitVal_digitChar (d : Nat) (h : d < 10) : digitVal (digitChar d) = d := by
  interval_cases d <;> rfl

theorem isDigitChar_digitChar (d : Nat) (h : d < 10) :
    isDigitChar (digitChar d) = true := by
  interval_cases d <;> rfl

theorem map_digitVal_digitChar (l : List Nat) (h : ∀ d ∈ l, d < 10) :
    (l.map digitChar).map digitVal = l := by
  induction l with
  | nil => rfl
  | cons d rest ih =>
      simp only [List.map_cons, List.cons.injEq]
      exact ⟨digitVal_digitChar d (h d (List.mem_cons_self _ _)),
        ih (fun x hx => h x (List.mem_cons_of_mem _ hx))⟩

theorem foldl_digitChars (l : List Nat) (hl : ∀ d ∈ l, d < 10) :
    ∀ a : Nat,
      List.foldl (fun acc c => 10 * acc + digitVal c) a (l.map digitChar)
        = a * 10 ^ l.length + Nat.ofDigits 10 l.reverse := by
  induction l with
  | nil => intro a; simp [Nat.ofDigits]
  | cons d rest ih =>
      intro a
      simp only [List.map_cons, List.foldl_cons]
      rw [digitVal_digitChar d (hl d (List.mem_cons_self _ _))]
      rw [ih (fun x hx => hl x (List.mem_cons_of_mem _ hx))]
      rw [List.reverse_cons, Nat.ofDigits_append]
      simp only [List.length_cons, List.length_reverse, Nat.ofDigits_singleton]
      ring

theorem natFromDigits_natChars (n : Nat) : natFromDigits (natChars n) = n := by
  unfold natChars
  split
  · rename_i h
    subst h
    rfl
  · rename_i h
    have hlt : ∀ d ∈ (Nat.digits 10 n).reverse, d < 10 := by
      intro d hd
      exact Nat.digits_lt_base (by norm_num) (List.mem_reverse.mp hd)
    unfold natFromDigits
    rw [foldl_digitChars _ hlt 0]
    simp [Nat.ofDigits_digits]

theorem natChars_all_digits (n : Nat) :
    ∀ c ∈ natChars n, isDigitChar c = true := by
  intro c hc
  unfold natChars at hc
  split at hc
  · simp at hc
    subst hc
    rfl
  · simp only [List.mem_map] at hc
    obtain ⟨d, hd, hdc⟩ := hc
    have : d < 10 := Nat.digits_lt_base (by norm_num) (List.mem_reverse.mp hd)
    rw [← hdc]
    exact isDigitChar_digitChar d this

theorem natChars_ne_nil (n : Nat) : natChars n ≠ [] := by
  unfold natChars
  split
  · simp
  · rename_i h
    have := (@Nat.digits_ne_nil_iff_ne_zero 10 n).mpr h
    simp [this]

theorem takeWhile_all_append (p : Char → Bool) (xs ys : List Char)
    (hx : ∀ x ∈ xs, p x = true)
    (hy : ys = [] ∨ ∃ y t, ys = y :: t ∧ p y = false) :
    (xs ++ ys).takeWhile p = xs ∧ (xs ++ ys).dropWhile p = ys := by
  induction xs with
  | nil =>
      simp only [List.nil_append]
      rcases hy with hy | ⟨y, t, hyt, hpy⟩
      · subst hy; simp
      · subst hyt
        simp [List.takeWhile, List.dropWhile, hpy]
  | cons x xs ih =>
      have hpx : p x = true := hx x (List.mem_cons_self _ _)
      have := ih (fun z hz => hx z (List.mem_cons_of_mem _ hz))
      simp only [List.cons_append, List.takeWhile, List.dropWhile, hpx,
        List.append_eq]
      exact ⟨by rw [this.1], by rw [this.2]⟩

theorem span_all_append (p : Char → Bool) (xs ys : List Char)
    (hx : ∀ x ∈ xs, p x = true)
    (hy : ys = [] ∨ ∃ y t, ys = y :: t ∧ p y = false) :
    (xs ++ ys).span p = (xs, ys) := by
  have h := takeWhile_all_append p xs ys hx hy
  rw [List.span_eq_take_drop, h.1, h.2]

theorem parseSign_minus (r : List Char) : parseSign ('-' :: r) = (true, r) := by
  rw [parseSign, if_pos rfl]

theorem parseSign_digit (c : Char) (r : List Char) (h : isDigitChar c = true) :
    parseSign (c :: r) = (false, c :: r) := by
  have h1 : ¬ c = '-' := by
    intro hc; rw [hc] at h; exact absurd h (by decide)
  have h2 : ¬ c = '+' := by
    intro hc; rw [hc] at h; exact absurd h (by decide)
  rw [parseSign, if_neg h1, if_neg h2]

/-- The printed fraction part: nothing for an empty fraction, otherwise a
point followed by the digits. -/
def fracChars (frac : List Nat) : List Char :=
  match frac with
  | [] => []
  | f => '.' :: f.map digitChar

theorem numToString_split (neg : Bool) (ip : Nat) (frac : List Nat) :
    numToString ⟨neg, ip, frac⟩
      = (if neg then ['-'] else []) ++ (natChars ip ++ fracChars frac) := by
  cases frac with
  | nil => simp [numToString, fracChars]
  | cons d rest => simp [numToString, fracChars]

theorem fracChars_shape (frac : List Nat) :
    (fracChars frac = [] ∧ frac = []) ∨
      fracChars frac = '.' :: frac.map digitChar := by
  cases frac with
  | nil => exact Or.inl ⟨rfl, rfl⟩
  | cons d rest => exact Or.inr rfl

theorem parseFloat_numToString (x : JsDec) (hwf : x.wf) :
    parseFloatChars (numToString x) = some x := by
  obtain ⟨neg, ip, frac⟩ := x
  have hwfd : ∀ d ∈ frac, d < 10 := hwf
  have hnum := numToString_split neg ip frac
  have hfpshape : fracChars frac = [] ∨
      ∃ y t, fracChars frac = y :: t ∧ isDigitChar y = false := by
    rcases fracChars_shape frac with ⟨h, _⟩ | h
    · exact Or.inl h
    · exact Or.inr ⟨'.', frac.map digitChar, h, by decide⟩
  have hspan : (natChars ip ++ fracChars frac).span isDigitChar
      = (natChars ip, fracChars frac) :=
    span_all_append _ _ _ (natChars_all_digits ip) hfpshape
  have hps : parseSign (numToString ⟨neg, ip, frac⟩)
      = (neg, natChars ip ++ fracChars frac) := by
    cases neg with
    | true =>
        rw [hnum, if_pos (by decide)]
        exact parseSign_minus _
    | false =>
        rw [hnum, if_neg (by decide)]
        obtain ⟨c, cs, hcs⟩ := List.exists_cons_of_ne_nil (natChars_ne_nil ip)
        have hc : isDigitChar c = true :=
          natChars_all_digits ip c (by rw [hcs]; exact List.mem_cons_self _ _)
        rw [hcs, List.cons_append, List.nil_append]
        exact parseSign_digit c _ hc
  have hfracd : parseFracDigits (fracChars frac) = frac.map digitChar := by
    rcases fracChars_shape frac with ⟨h, hfr⟩ | h
    · rw [h, hfr]
      rfl
    · rw [h, parseFracDigits, if_pos rfl]
      have hall : ∀ z ∈ frac.map digitChar, isDigitChar z = true := by
        intro z hz
        simp only [List.mem_map] at hz
        obtain ⟨d, hd, hdz⟩ := hz
        rw [← hdz]
        exact isDigitChar_digitChar d (hwfd d hd)
      have h2 := span_all_append isDigitChar (frac.map digitChar) [] hall
        (Or.inl rfl)
      rw [List.append_nil] at h2
      rw [h2]
  have hne : natChars ip ≠ [] := natChars_ne_nil ip
  simp only [parseFloatChars, hps, hspan, hfracd]
  rw [if_neg (by simp [hne])]
  simp only [Option.some.injEq, natFromDigits_natChars,
    map_digitVal_digitChar frac hwfd]

/-- JavaScript `s.split('|')`: the fields between `|` separators. -/
def splitPipe : List Char → List (List Char)
  | [] => [[]]
  | c :: cs =>
    if c = '|' then [] :: splitPipe cs
    else
      match splitPipe cs with
      | [] => [[c]]
      | g :: gs => (c :: g) :: gs

theorem splitPipe_no_pipe_head (a : List Char) (h : '|' ∉ a) (r : List Char) :
    splitPipe (a ++ '|' :: r) = a :: splitPipe r := by
  induction a with
  | nil =>
      simp only [List.nil_append]
      rw [splitPipe, if_pos rfl]
  | cons c cs ih =>
      have hc : ¬ c = '|' := fun hcp => h (hcp ▸ List.mem_cons_self _ _)
      have ihh := ih (fun hm => h (List.mem_cons_of_mem _ hm))
      rw [List.cons_append, splitPipe, if_neg hc, ihh]

theorem splitPipe_whole (a : List Char) (h : '|' ∉ a) : splitPipe a = [a] := by
  induction a with
  | nil => rfl
  | cons c cs ih =>
      have hc : ¬ c = '|' := fun hcp => h (hcp ▸ List.mem_cons_self _ _)
      have ihh := ih (fun hm => h (List.mem_cons_of_mem _ hm))
      rw [splitPipe, if_neg hc, ihh]

theorem splitPipe_three (a b c : List Char) (ha : '|' ∉ a) (hb : '|' ∉ b)
    (hc : '|' ∉ c) :
    splitPipe (a ++ '|' :: (b ++ '|' :: c)) = [a, b, c] := by
  rw [splitPipe_no_pipe_head a ha, splitPipe_no_pipe_head b hb,
    splitPipe_whole c hc]

theorem digitChar_ne_pipe (d : Nat) : digitChar d ≠ '|' := by
  unfold digitChar
  split <;> decide

theorem hexCharUp_ne_pipe (n : Nat) : hexCharUp n ≠ '|' := by
  unfold hexCharUp
  split <;> decide

theorem pipe_not_mem_natChars (n : Nat) : '|' ∉ natChars n := by
  intro h
  have := natChars_all_digits n '|' h
  exact absurd this (by decide)

theorem pipe_not_mem_numToString (x : JsDec) : '|' ∉ numToString x := by
  obtain ⟨neg, ip, frac⟩ := x
  rw [numToString_split]
  intro h
  rcases List.mem_append.mp h with h1 | h2
  · cases neg with
    | true => simp at h1
    | false => simp at h1
  · rcases List.mem_append.mp h2 with h3 | h4
    · exact pipe_not_mem_natChars ip h3
    · rcases fracChars_shape frac with ⟨hsh, _⟩ | hsh
      · rw [hsh] at h4; simp at h4
      · rw [hsh] at h4
        rcases List.mem_cons.mp h4 with h5 | h5
        · exact absurd h5 (by decide)
        · simp only [List.mem_map] at h5
          obtain ⟨d, _, hd⟩ := h5
          exact digitChar_ne_pipe d hd

theorem pipe_not_mem_encodeURIComp (s : List Char) :
    '|' ∉ encodeURIComp s := by
  intro h
  simp only [encodeURIComp, List.mem_flatten, List.mem_map] at h
  obtain ⟨l, ⟨c, _, hcl⟩, hml⟩ := h
  rw [← hcl] at hml
  unfold encodeChar at hml
  split at hml
  · rename_i hu
    simp at hml
    rw [← hml] at hu
    exact absurd hu (by decide)
  · simp only [List.mem_flatten, List.mem_map] at hml
    obtain ⟨l2, ⟨b, _, hbl⟩, hml2⟩ := hml
    rw [← hbl] at hml2
    unfold percentByte at hml2
    rcases List.mem_cons.mp hml2 with h5 | h5
    · exact absurd h5 (by decide)
    · rcases List.mem_cons.mp h5 with h6 | h6
      · exact hexCharUp_ne_pipe _ h6.symm
      · rcases List.mem_cons.mp h6 with h7 | h7
        · exact hexCharUp_ne_pipe _ h7.symm
        · simp at h7

/-- A location as serialized into the shareable link: coordinates in the
decimal model, name as a character sequence. -/
structure UrlLocation where
  lat : JsDec
  lng : JsDec
  name : List Char
deriving DecidableEq, Repr

/-- The value the URL-encode effect stores in the `start`/`end` query
parameter (src/App.tsx lines 46-47):
`${lat}|${lng}|${encodeURIComponent(name)}`.  (`URLSearchParams` adds and
removes one more percent-encoding layer transparently; `params.get` on
startup returns exactly this string.) -/
def encodeLocParam (loc : UrlLocation) : List Char :=
  numToString loc.lat ++ '|' :: (numToString loc.lng ++ '|' :: encodeURIComp loc.name)

/-- The string value of a transport mode, as stored in the `mode` query
parameter (src/App.tsx line 48). -/
def modeToString : TransportMode → List Char
  | TransportMode.car => ['c', 'a', 'r']
  | TransportMode.bike => ['b', 'i', 'k', 'e']
  | TransportMode.foot => ['f', 'o', 'o', 't']

/-- The argument `setStart`/`setEnd` receives during URL decoding
(src/App.tsx lines 26-36): possibly-NaN coordinates (`none` = NaN) and a
name string. -/
structure SetLocCall where
  lat : Option JsDec
  lng : Option JsDec
  name : List Char
deriving DecidableEq, Repr

/-- JavaScript `undefined` coerced to a string. -/
def undefinedChars : List Char := ['u', 'n', 'd', 'e', 'f', 'i', 'n', 'e', 'd']

/-- The string a JavaScript built-in sees for a possibly-`undefined`
value: destructuring past the end of `split('|')` yields `undefined`,
which `parseFloat` and `decodeURIComponent` coerce to `"undefined"`. -/
def jsStringOf (o : Option (List Char)) : List Char := o.getD undefinedChars

/-- `parseFloat` applied to a possibly-`undefined` field. -/
def parseFloatJs (o : Option (List Char)) : Option JsDec :=
  parseFloatChars (jsStringOf o)

/-- The URL-decode effect on one `start`/`end` parameter (src/App.tsx
lines 26-30): split on `|`, destructure into three fields, parse the two
coordinates with `parseFloat` (NaN = `none`), percent-decode the name.
The surrounding `try/catch` swallows a `decodeURIComponent` URIError, in
which case the setter is not called (`none`); `parseFloat` never throws,
so every other input, however malformed, still calls the setter. -/
def decodeLocParam (p : List Char) : Option SetLocCall :=
  let parts := splitPipe p
  match decodeURIComp (jsStringOf (parts.get? 2)) with
  | some nm =>
      some ⟨parseFloatJs (parts.get? 0), parseFloatJs (parts.get? 1), nm⟩
  | none => none

/-- The URL-decode effect on the `mode` parameter (src/App.tsx
lines 38-40): the value is accepted only if it is one of the three mode
strings. -/
def decodeModeParam (p : List Char) : Option TransportMode :=
  if p = ['c', 'a', 'r'] then some TransportMode.car
  else if p = ['b', 'i', 'k', 'e'] then some TransportMode.bike
  else if p = ['f', 'o', 'o', 't'] then some TransportMode.foot
  else none

/-- The three query parameters written by the URL-encode effect
(src/App.tsx lines 44-52) for a session with both waypoints set. -/
def encodeSession (s e : UrlLocation) (m : TransportMode) :
    List Char × List Char × List Char :=
  (encodeLocParam s, encodeLocParam e, modeToString m)

/-- The URL-decode effect of startup (src/App.tsx lines 20-41) applied to
the three parameters: what `setStart`, `setEnd` and `setTransportMode`
receive (`none` = the field is ignored / the setter is not called). -/
def decodeSession (ps : List Char × List Char × List Char) :
    Option SetLocCall × Option SetLocCall × Option TransportMode :=
  (decodeLocParam ps.1, decodeLocParam ps.2.1, decodeModeParam ps.2.2)

theorem decodeLoc_encodeLoc (loc : UrlLocation) (h1 : loc.lat.wf)
    (h2 : loc.lng.wf) :
    decodeLocParam (encodeLocParam loc)
      = some ⟨some loc.lat, some loc.lng, loc.name⟩ := by
  have hsplit : splitPipe (encodeLocParam loc)
      = [numToString loc.lat, numToString loc.lng, encodeURIComp loc.name] :=
    splitPipe_three _ _ _ (pipe_not_mem_numToString _)
      (pipe_not_mem_numToString _) (pipe_not_mem_encodeURIComp _)
  simp only [decodeLocParam, hsplit]
  have hname : decodeURIComp (jsStringOf (some (encodeURIComp loc.name)))
      = some loc.name := decode_encode_uri loc.name
  have hlat : parseFloatJs (some (numToString loc.lat)) = some loc.lat :=
    parseFloat_numToString loc.lat h1
  have hlng : parseFloatJs (some (numToString loc.lng)) = some loc.lng :=
    parseFloat_numToString loc.lng h2
  simp only [List.get?] at *
  simp only [hname, hlat, hlng]

theorem decodeMode_encodeMode (m : TransportMode) :
    decodeModeParam (modeToString m) = some m := by
  cases m <;> rfl

/-- Claim C8: encoding a trip session (start, end, mode) into the
shareable-link query parameters and decoding those parameters reproduces
the same start and end coordinates, the same names, and the same transport
mode.  Coordinates are recovered exactly (stronger than the claimed
floating-point tolerance); the hypotheses say the coordinate decimals are
well-formed (digits below ten), which printed numbers always are. -/
theorem url_session_roundtrip :
    ∀ (s e : UrlLocation) (m : TransportMode),
      s.lat.wf → s.lng.wf → e.lat.wf → e.lng.wf →
      decodeSession (encodeSession s e m)
        = (some ⟨some s.lat, some s.lng, s.name⟩,
           some ⟨some e.lat, some e.lng, e.name⟩,
           some m) := by
  intro s e m hs1 hs2 he1 he2
  simp only [decodeSession, encodeSession]
  rw [decodeLoc_encodeLoc s hs1 hs2, decodeLoc_encodeLoc e he1 he2,
    decodeMode_encodeMode]

/-- Witness for C8: a concrete session (48.8566, 2.3522, "Paris") →
(-1.5, 10, "École 2") by bike; the second name exercises the UTF-8
percent-encoding path. -/
theorem url_session_roundtrip_witness :
    decodeSession (encodeSession
        ⟨⟨false, 48, [8, 5, 6, 6]⟩, ⟨false, 2, [3, 5, 2, 2]⟩,
          ['P', 'a', 'r', 'i', 's']⟩
        ⟨⟨true, 1, [5]⟩, ⟨false, 10, []⟩, ['É', 'c', 'o', 'l', 'e', ' ', '2']⟩
        TransportMode.bike)
      = (some ⟨some ⟨false, 48, [8, 5, 6, 6]⟩, some ⟨false, 2, [3, 5, 2, 2]⟩,
           ['P', 'a', 'r', 'i', 's']⟩,
         some ⟨some ⟨true, 1, [5]⟩, some ⟨false, 10, []⟩,
           ['É', 'c', 'o', 'l', 'e', ' ', '2']⟩,
         some TransportMode.bike) :=
  url_session_roundtrip _ _ _ (by decide) (by decide) (by decide) (by decide)

/-- Counterexample to claim C9 as stated: the malformed start parameter
`garbage` (no `|`-delimited shape at all) does not crash startup, but it
does not leave the slot alone either — the setter is called with NaN
coordinates (`none`) and the name `"undefined"`. -/
theorem malformed_field_still_sets_slot :
    decodeLocParam ['g', 'a', 'r', 'b', 'a', 'g', 'e']
      = some ⟨none, none, undefinedChars⟩ ∧
    decodeLocParam ['g', 'a', 'r', 'b', 'a', 'g', 'e'] ≠ none := by
  have hsplit := splitPipe_whole ['g', 'a', 'r', 'b', 'a', 'g', 'e'] (by decide)
  have henc : encodeURIComp undefinedChars = undefinedChars := by decide
  have hdec : decodeURIComp undefinedChars = some undefinedChars := by
    rw [← henc]
    exact decode_encode_uri undefinedChars
  have hpf : parseFloatJs (some ['g', 'a', 'r', 'b', 'a', 'g', 'e']) = none := by
    decide
  have hpf2 : parseFloatJs none = none := by decide
  constructor
  · simp only [decodeLocParam, hsplit, List.get?, jsStringOf, Option.getD,
      hdec, hpf, hpf2]
  · simp only [decodeLocParam, hsplit, List.get?, jsStringOf, Option.getD,
      hdec, hpf, hpf2]
    simp

/-- Claim C9, amended to what the code does: startup decoding never
crashes — a `mode` parameter outside the three mode strings is ignored,
and a `start`/`end` parameter is ignored exactly when percent-decoding of
its name segment throws; but a `start`/`end` parameter that is merely not
in the delimited shape (while its name segment percent-decodes, e.g. the
`undefined` segment of a missing field) still calls the setter, with NaN
coordinates. -/
theorem url_decode_malformed_guarded :
    (∀ p : List Char,
      p ≠ modeToString TransportMode.car →
      p ≠ modeToString TransportMode.bike →
      p ≠ modeToString TransportMode.foot →
      decodeModeParam p = none) ∧
    (∀ p, decodeURIComp (jsStringOf ((splitPipe p).get? 2)) = none →
      decodeLocParam p = none) := by
  constructor
  · intro p h1 h2 h3
    simp only [modeToString] at h1 h2 h3
    rw [decodeModeParam, if_neg h1, if_neg h2, if_neg h3]
  · intro p h
    simp only [decodeLocParam, h]

/-- Witness for the amended C9: the unknown mode `train` is ignored, and a
start parameter whose name segment is a bare `%` (a URIError in
`decodeURIComponent`) is ignored. -/
theorem url_decode_malformed_guarded_witness :
    decodeModeParam ['t', 'r', 'a', 'i', 'n'] = none ∧
    decodeLocParam ['1', '|', '2', '|', '%'] = none := by
  constructor
  · exact url_decode_malformed_guarded.1 _ (by decide) (by decide) (by decide)
  · refine url_decode_malformed_guarded.2 _ ?_
    have hsplit : splitPipe ['1', '|', '2', '|', '%'] = [['1'], ['2'], ['%']] :=
      splitPipe_three ['1'] ['2'] ['%'] (by decide) (by decide) (by decide)
    rw [hsplit]
    simp only [List.get?, jsStringOf, Option.getD]
    show decodeURIComp ['%'] = none
    unfold decodeURIComp
    rw [tokenize, if_pos rfl, tokenizeEsc]
    rfl
